import Mathlib

/-!
Shallow embedding of `tools/copier_update.py` (cetmix/cetmix-maintainer-tools).

The script orchestrates a batch "copier update" over many (repository, branch)
pairs.  External collaborators (git, the copier tool, pre-commit, the GitHub
API, the filesystem) are modelled as oracles: their observable results are
inputs of the embedded functions, and every externally visible action is
recorded as an event (`Ev`) in an ordered trace.
-/

namespace CopierUpdate

/-- Observable external actions of one run, in program order.

* `gitConfig k v` — `git config k v` (lines 150-157)
* `printSkipNoAnswers repo` — the "Skipping ... no .copier-answers.yml" notice (line 159)
* `writeAnswers c` — `.copier-answers.yml` rewritten with content `c` (line 106)
* `gitAdd p` — `git add p` (lines 107, 169, 176, and inside the PR helper, line 47)
* `gitCommit m` — `git commit -m m` (lines 48, 108, and via `commit_if_needed`)
* `copierUpdate r` — `copier update -f --trust` returning exit code `r` (line 162)
* `printUpdateFailed repo` — the "copier update failed" notice (line 164)
* `rmRejFiles` — `rm -f` of the ignored `.rej` files (line 166)
* `preCommit r` — `pre-commit run -a` returning exit code `r` (line 174)
* `printManual repo` — the "need manual intervention" notice (line 180)
* `gitCheckoutB b` — `git checkout -B b` (line 46)
* `gitPushForce b` — `git push -f origin b` (line 49)
* `apiListPRs org repo base head` — the GitHub PR-list request (lines 29-33)
* `ghCreatePR org repo base title` — `gh pr create` (lines 51-78)
* `gitPush` — plain `git push` of the current branch (line 184) -/
inductive Ev where
  | gitConfig : String → String → Ev
  | printSkipNoAnswers : String → Ev
  | writeAnswers : List Char → Ev
  | gitAdd : String → Ev
  | gitCommit : String → Ev
  | copierUpdate : Int → Ev
  | printUpdateFailed : String → Ev
  | rmRejFiles : Ev
  | preCommit : Int → Ev
  | printManual : String → Ev
  | gitCheckoutB : String → Ev
  | gitPushForce : String → Ev
  | apiListPRs : String → String → String → String → Ev
  | ghCreatePR : String → String → String → String → Ev
  | gitPush : Ev
  deriving DecidableEq

/-- One element of the JSON list returned by the GitHub `pulls` endpoint;
only the fields the script reads (lines 39-40). -/
structure PullReq where
  state : String
  number : Nat
  deriving DecidableEq

/-- `_make_update_dotfiles_branch` (lines 17-18). -/
def make_update_dotfiles_branch (branch : String) : String :=
  branch ++ "-ocabot-update-dotfiles"

/-- `_make_commit_msg` (lines 21-25). -/
def make_commit_msg (ci_skip : Bool) : String :=
  let msg := "[IMP] update dotfiles"
  if ci_skip then msg ++ " [ci skip]" else msg

/-- `_get_update_dotfiles_open_pr` (lines 28-41), applied to the decoded
JSON list `prs` of the API response: empty list gives `None`; otherwise the
first element is inspected and its number returned when its state is open. -/
def get_update_dotfiles_open_pr (prs : List PullReq) : Option Nat :=
  match prs with
  | [] => none
  | pr :: _ => if pr.state = "open" then some pr.number else none

/-- Python truthiness of an `Optional[int]`: `None` and `0` are falsy.
Models the `if not _get_update_dotfiles_open_pr(...)` test on line 50. -/
def py_falsy : Option Nat → Bool
  | none => true
  | some n => n == 0

/-- `_make_update_dotfiles_pr` (lines 44-78) as an event trace.  `prs` is the
JSON list the GitHub API returns for the query issued on lines 29-33. -/
def make_update_dotfiles_pr (org repo branch : String) (prs : List PullReq) :
    List Ev :=
  let pr_branch := make_update_dotfiles_branch branch
  [Ev.gitCheckoutB pr_branch,
   Ev.gitAdd ".",
   Ev.gitCommit (make_commit_msg false),
   Ev.gitPushForce pr_branch,
   Ev.apiListPRs org repo branch (org ++ ":" ++ pr_branch)] ++
  (if py_falsy (get_update_dotfiles_open_pr prs) then
    [Ev.ghCreatePR org repo branch
      ("[" ++ branch ++ "] dotfiles update needs manual intervention")]
   else [])

/-- `_iterate_repos_and_branches` (lines 81-94).  `all_repositories` is the
result of the external registry lookup `get_repositories()` (line 83). -/
def iterate_repos_and_branches (all_repositories : List String)
    (repos branches : String) : List (String × String) :=
  let all_repos := if repos = ":all:" then all_repositories
                   else repos.splitOn ","
  all_repos.flatMap fun repo =>
    let repo := repo.trim
    if repo = "" then []
    else
      (branches.splitOn ",").flatMap fun branch =>
        let branch := branch.trim
        if branch = "" then []
        else [(repo, branch)]

/-- The pattern replaced by `_fix_copier_answers` (line 103). -/
def desc_pat : List Char := "repo_description: null".toList

/-- The replacement written by `_fix_copier_answers` (line 103). -/
def desc_rep : List Char := "repo_description: \"\"".toList

/-- Fuel-driven worker for `replace_all`.  With enough fuel this is Python's
`str.replace` for a nonempty pattern: scan left to right, replace each
non-overlapping occurrence of `pat` by `rep`.  (A fuel of `s.length` always
suffices; the fuel only makes the recursion structural.) -/
def replaceAllGo (pat rep : List Char) : Nat → List Char → List Char
  | _, [] => []
  | 0, c :: rest => c :: rest
  | fuel + 1, c :: rest =>
    if pat ≠ [] ∧ pat <+: (c :: rest) then
      rep ++ replaceAllGo pat rep fuel (rest.drop (pat.length - 1))
    else
      c :: replaceAllGo pat rep fuel rest

/-- Python's `str.replace(pat, rep)` on a string seen as a char list
(for nonempty `pat`; the script's pattern is nonempty). -/
def replace_all (pat rep s : List Char) : List Char :=
  replaceAllGo pat rep s.length s

/-- `_fix_copier_answers` (lines 97-108).  The filesystem is the
`Option (List Char)` content of `.copier-answers.yml` (`none` = absent);
the result is the content after the call together with the emitted events. -/
def fix_copier_answers (answers : Option (List Char)) :
    Option (List Char) × List Ev :=
  match answers with
  | none => (none, [])
  | some copier_answers =>
    let modified := replace_all desc_pat desc_rep copier_answers
    if modified ≠ copier_answers then
      (some modified,
       [Ev.writeAnswers modified,
        Ev.gitAdd ".copier-answers.yml",
        Ev.gitCommit "[FIX] .copier-answers.yml"])
    else
      (some copier_answers, [])

/-- The `for _ in range(n)` pre-commit loop of lines 173-178, started at
invocation index `k` with the current value `r` of the Python variable `r`.
`codes k` is the exit code of the `k`-th `pre-commit run -a` invocation.
Returns the emitted events and the final value of `r`. -/
def pre_commit_loop (codes : Nat → Int) (r : Int) (k : Nat) :
    Nat → List Ev × Int
  | 0 => ([], r)
  | n + 1 =>
    let rk := codes k
    if rk = 0 then ([Ev.preCommit rk, Ev.gitAdd "."], rk)
    else
      let p := pre_commit_loop codes rk (k + 1) n
      ([Ev.preCommit rk, Ev.gitAdd "."] ++ p.1, p.2)

/-- Modelled from the spec: `commit_if_needed` (imported from `gitutils`,
line 11, not part of the sources here).  Per spec §4.5: "if there are staged
changes relative to HEAD, create a commit with a fixed message ...; if no
changes, do nothing (no empty commit)".  `tree_changed` says whether staged
changes relative to HEAD exist; the Bool result reports whether a commit was
made. -/
def commit_if_needed (tree_changed : Bool) (msg : String) : Bool × List Ev :=
  if tree_changed then (true, [Ev.gitCommit msg]) else (false, [])

/-- Lines 183-184: commit staged changes if any, and push exactly when
`commit_if_needed` reported a commit. -/
def publish_step (tree_changed : Bool) (msg : String) : List Ev :=
  let c := commit_if_needed tree_changed msg
  c.2 ++ (if c.1 then [Ev.gitPush] else [])

/-- Per-iteration oracle values: everything the external world decides for
one (repository, branch) pair. -/
structure IterEnv where
  /-- Content of `.copier-answers.yml` in the fresh clone (`none` = absent). -/
  answers : Option (List Char)
  /-- Exit code of `copier update -f --trust` (line 162). -/
  copierExit : Int
  /-- Exit code of the `k`-th `pre-commit run -a` invocation (line 174). -/
  preCommitCodes : Nat → Int
  /-- Whether the tree has staged changes relative to HEAD after formatting. -/
  treeChanged : Bool
  /-- JSON list returned by the GitHub PR-list query (lines 29-35). -/
  prs : List PullReq
  /-- Whether the remote branch exists (`temporary_clone` raises
  `BranchNotFoundError` otherwise, line 185). -/
  branchExists : Bool

/-- The body of one iteration of `main`'s loop (lines 149-184), assuming the
clone succeeded, as an event trace. -/
def iteration_body (env : IterEnv) (org repo branch : String) (skip_ci : Bool)
    (git_user_name git_user_email : String) : List Ev :=
  (if git_user_name ≠ "" then [Ev.gitConfig "user.name" git_user_name] else []) ++
  (if git_user_email ≠ "" then [Ev.gitConfig "user.email" git_user_email] else []) ++
  match env.answers with
  | none => [Ev.printSkipNoAnswers repo]
  | some content =>
    (fix_copier_answers (some content)).2 ++
    [Ev.copierUpdate env.copierExit] ++
    (if env.copierExit ≠ 0 then [Ev.printUpdateFailed repo]
     else
      [Ev.rmRejFiles, Ev.gitAdd "."] ++
      (let fmt := pre_commit_loop env.preCommitCodes 0 0 3
       fmt.1 ++
       (if fmt.2 ≠ 0 then
          Ev.printManual repo :: make_update_dotfiles_pr org repo branch env.prs
        else
          publish_step env.treeChanged (make_commit_msg skip_ci))))

/-- `main`'s loop over the pairs (lines 144-186) in the normal regime where
every external command the model does not track succeeds: a pair whose branch
is missing contributes nothing (`BranchNotFoundError` is caught, line 185),
every other pair contributes its iteration trace. -/
def main_loop (envOf : String × String → IterEnv) (org : String)
    (skip_ci : Bool) (git_user_name git_user_email : String) :
    List (String × String) → List Ev
  | [] => []
  | (repo, branch) :: rest =>
    (if (envOf (repo, branch)).branchExists then
      iteration_body (envOf (repo, branch)) org repo branch skip_ci
        git_user_name git_user_email
     else []) ++
    main_loop envOf org skip_ci git_user_name git_user_email rest

/-- Kinds of exception an iteration can raise: the distinguished
`BranchNotFoundError`, or any other exception (e.g. a
`subprocess.CalledProcessError` from a `check_call`). -/
inductive ExcKind where
  | branchNotFound
  | other
  deriving DecidableEq

/-- Abstract outcome of one iteration body: normal completion or a raised
exception. -/
inductive IterOutcome where
  | ok
  | raises : ExcKind → IterOutcome
  deriving DecidableEq

/-- The exception skeleton of `main`'s loop (lines 144-186): each iteration is
abstracted to its outcome.  `try/except BranchNotFoundError: pass` swallows
exactly the branch-not-found exception; any other exception propagates out of
`main` and ends the loop.  Returns the pairs whose iteration was started, and
the exception escaping `main`, if any. -/
def main_try_loop (outcome : String × String → IterOutcome) :
    List (String × String) → List (String × String) × Option ExcKind
  | [] => ([], none)
  | p :: rest =>
    match outcome p with
    | IterOutcome.ok =>
      let r := main_try_loop outcome rest
      (p :: r.1, r.2)
    | IterOutcome.raises ExcKind.branchNotFound =>
      let r := main_try_loop outcome rest
      (p :: r.1, r.2)
    | IterOutcome.raises ExcKind.other => ([p], some ExcKind.other)

/-- Spec wording (§8): "the trimmed, non-empty comma-split of the input".
Stated from the spec, to be compared with `iterate_repos_and_branches`. -/
def spec_clean_split (s : String) : List String :=
  ((s.splitOn ",").map String.trim).filter (fun x => x ≠ "")

/-- Count of formatting-tool invocations in a trace. -/
def count_invocations (evs : List Ev) : Nat :=
  evs.countP fun e => match e with
    | Ev.preCommit _ => true
    | _ => false

/-- A trace is well staged when it is a sequence of blocks, each one
formatting invocation immediately followed by `git add .`. -/
def well_staged : List Ev → Bool
  | [] => true
  | Ev.preCommit _ :: Ev.gitAdd p :: rest => p == "." && well_staged rest
  | _ => false

/-! Shared helper lemmas -/

lemma gitPush_notin_fix (answers : Option (List Char)) :
    Ev.gitPush ∉ (fix_copier_answers answers).2 := by
  cases answers with
  | none => simp [fix_copier_answers]
  | some s =>
    by_cases h : replace_all desc_pat desc_rep s ≠ s <;>
      simp [fix_copier_answers, h]

lemma gitPush_notin_pre_commit_loop (codes : Nat → Int) (r : Int) (k n : Nat) :
    Ev.gitPush ∉ (pre_commit_loop codes r k n).1 := by
  induction n generalizing r k with
  | zero => simp [pre_commit_loop]
  | succ n ih =>
    by_cases h : codes k = 0 <;> simp [pre_commit_loop, h]
    exact ih _ _

lemma gitPush_notin_make_pr (org repo branch : String) (prs : List PullReq) :
    Ev.gitPush ∉ make_update_dotfiles_pr org repo branch prs := by
  by_cases h : py_falsy (get_update_dotfiles_open_pr prs) <;>
    simp [make_update_dotfiles_pr, h]

/-! Claims -/

/-- C8: the commit message for the direct-push commit is exactly
"[IMP] update dotfiles" when the skip-ci flag is unset, and exactly
"[IMP] update dotfiles [ci skip]" when it is set; the direct-push commit
event always carries that message. -/
theorem C8_direct_push_commit_message :
    make_commit_msg false = "[IMP] update dotfiles" ∧
    make_commit_msg true = "[IMP] update dotfiles [ci skip]" ∧
    ∀ (skip_ci tree_changed : Bool) (m : String),
      Ev.gitCommit m ∈ publish_step tree_changed (make_commit_msg skip_ci) →
      m = make_commit_msg skip_ci := by
  refine ⟨rfl, rfl, ?_⟩
  intro sc tc m hm
  cases tc <;> simp [publish_step, commit_if_needed] at hm
  exact hm

/-- Witness for C8 at a concrete input. -/
theorem C8_direct_push_commit_message_witness :
    ("[IMP] update dotfiles" : String) = make_commit_msg false :=
  C8_direct_push_commit_message.2.2 false true "[IMP] update dotfiles" (by decide)

/-- C10: the open-PR lookup inspects only the first element of the returned
list: it yields a PR number iff the list is nonempty and its first element is
open; later elements are irrelevant; the empty list yields none. -/
theorem C10_open_pr_lookup_first_element :
    (∀ (prs : List PullReq) (n : Nat),
      get_update_dotfiles_open_pr prs = some n ↔
        ∃ p rest, prs = p :: rest ∧ p.state = "open" ∧ p.number = n) ∧
    (∀ (p : PullReq) (rest : List PullReq),
      get_update_dotfiles_open_pr (p :: rest) = get_update_dotfiles_open_pr [p]) ∧
    get_update_dotfiles_open_pr ([] : List PullReq) = none := by
  refine ⟨?_, ?_, rfl⟩
  · intro prs n
    cases prs with
    | nil => simp [get_update_dotfiles_open_pr]
    | cons p rest =>
      by_cases h : p.state = "open"
      · simp [get_update_dotfiles_open_pr, h, eq_comm]
      · simp [get_update_dotfiles_open_pr, h]
  · intro p rest
    by_cases h : p.state = "open" <;> simp [get_update_dotfiles_open_pr, h]

/-- C9: the commit created on the manual-intervention PR branch always uses
the message "[IMP] update dotfiles" (`ci_skip` hardcoded to `False` on
line 48), for every value of `--skip-ci`; on the manual-intervention path the
whole iteration trace is independent of `--skip-ci`. -/
theorem C9_pr_branch_commit_message :
    (∀ (org repo branch : String) (prs : List PullReq),
      Ev.gitCommit (make_commit_msg false) ∈
        make_update_dotfiles_pr org repo branch prs ∧
      ∀ m, Ev.gitCommit m ∈ make_update_dotfiles_pr org repo branch prs →
        m = "[IMP] update dotfiles") ∧
    ∀ (env : IterEnv) (org repo branch git_user_name git_user_email : String)
      (sc₁ sc₂ : Bool),
      (pre_commit_loop env.preCommitCodes 0 0 3).2 ≠ 0 →
      iteration_body env org repo branch sc₁ git_user_name git_user_email =
        iteration_body env org repo branch sc₂ git_user_name git_user_email := by
  constructor
  · intro org repo branch prs
    constructor
    · simp [make_update_dotfiles_pr]
    · intro m hm
      by_cases h : py_falsy (get_update_dotfiles_open_pr prs) <;>
        simp [make_update_dotfiles_pr, h] at hm <;>
        simp [hm, make_commit_msg]
  · intro env org repo branch un ue s1 s2 hf
    unfold iteration_body
    cases env.answers with
    | none => rfl
    | some c =>
      by_cases hc : env.copierExit ≠ 0
      · simp [hc]
      · simp [hc, hf]

/-- Witness for C9 at concrete inputs. -/
theorem C9_pr_branch_commit_message_witness :
    (("[IMP] update dotfiles" : String) = "[IMP] update dotfiles") ∧
    iteration_body ⟨some [], 0, fun _ => 1, true, [], true⟩ "o" "r" "b" true "" "" =
      iteration_body ⟨some [], 0, fun _ => 1, true, [], true⟩ "o" "r" "b" false "" "" :=
  ⟨(C9_pr_branch_commit_message.1 "o" "r" "b" []).2 "[IMP] update dotfiles" (by decide),
   C9_pr_branch_commit_message.2 ⟨some [], 0, fun _ => 1, true, [], true⟩
     "o" "r" "b" "" "" true false (by decide)⟩

/-- C2: on the manual-intervention path, under the hosting-API contract that
the PR-list query returns only open pull requests (the endpoint's state
filter defaults to open) with positive numbers, the create-pull-request
operation is not invoked when such an open PR exists, and a new pull request
is created exactly when none exists. -/
theorem C2_no_duplicate_pr :
    ∀ (org repo branch : String) (prs : List PullReq),
      (∀ p ∈ prs, p.state = "open") →
      (∀ p ∈ prs, 0 < p.number) →
      ((∃ p ∈ prs, p.state = "open") →
        ∀ t, Ev.ghCreatePR org repo branch t ∉
          make_update_dotfiles_pr org repo branch prs) ∧
      ((∃ t, Ev.ghCreatePR org repo branch t ∈
          make_update_dotfiles_pr org repo branch prs) ↔
        ¬ ∃ p ∈ prs, p.state = "open") := by
  intro org repo branch prs hopen hpos
  cases prs with
  | nil =>
    constructor
    · rintro ⟨p, hp, -⟩
      cases hp
    · simp [make_update_dotfiles_pr, py_falsy, get_update_dotfiles_open_pr]
  | cons p rest =>
    have h1 : p.state = "open" := hopen p (by simp)
    have h2 : 0 < p.number := hpos p (by simp)
    have hfal : py_falsy (get_update_dotfiles_open_pr (p :: rest)) = false := by
      simp [get_update_dotfiles_open_pr, h1, py_falsy]
      omega
    constructor
    · intro _ t
      simp [make_update_dotfiles_pr, hfal]
    · simp [make_update_dotfiles_pr, hfal]
      exact fun hc => absurd h1 hc

/-- Witness for C2: a single open PR in the response, no creation occurs. -/
theorem C2_no_duplicate_pr_witness :
    Ev.ghCreatePR "o" "r" "b" "t" ∉
      make_update_dotfiles_pr "o" "r" "b" [⟨"open", 1⟩] :=
  (C2_no_duplicate_pr "o" "r" "b" [⟨"open", 1⟩] (by decide) (by decide)).1
    ⟨⟨"open", 1⟩, by decide, rfl⟩ "t"

/-- C6: on the ready-to-publish path, nothing is committed or pushed when the
tree has no changes; a push happens exactly when `commit_if_needed` reported
a commit; and an iteration whose tree is unchanged never pushes. -/
theorem C6_no_commit_no_push_when_clean :
    (∀ msg, publish_step false msg = []) ∧
    (∀ (tree_changed : Bool) (msg : String),
      Ev.gitPush ∈ publish_step tree_changed msg ↔
        (commit_if_needed tree_changed msg).1 = true) ∧
    ∀ (env : IterEnv) (org repo branch : String) (skip_ci : Bool)
      (git_user_name git_user_email : String),
      env.treeChanged = false →
      Ev.gitPush ∉
        iteration_body env org repo branch skip_ci git_user_name git_user_email := by
  refine ⟨fun msg => rfl, ?_, ?_⟩
  · intro tc msg
    cases tc <;> simp [publish_step, commit_if_needed]
  · intro env org repo branch sc un ue htc hmem
    unfold iteration_body at hmem
    rcases List.mem_append.1 hmem with h | h
    · rcases List.mem_append.1 h with h' | h' <;> revert h' <;> split <;> simp
    · cases hans : env.answers with
      | none => rw [hans] at h; simp at h
      | some c =>
        rw [hans] at h
        rcases List.mem_append.1 h with h' | h'
        · rcases List.mem_append.1 h' with h'' | h''
          · exact gitPush_notin_fix _ h''
          · simp at h''
        · revert h'
          split
          · simp
          · intro h'
            rcases List.mem_append.1 h' with h'' | h''
            · simp at h''
            · rcases List.mem_append.1 h'' with h3 | h3
              · exact gitPush_notin_pre_commit_loop _ _ _ _ h3
              · revert h3
                split
                · intro h3
                  rcases List.mem_cons.1 h3 with h4 | h4
                  · cases h4
                  · exact gitPush_notin_make_pr _ _ _ _ h4
                · rw [htc]
                  simp [publish_step, commit_if_needed]

/-- Witness for C6 at a concrete clean-tree iteration. -/
theorem C6_no_commit_no_push_when_clean_witness :
    Ev.gitPush ∉
      iteration_body ⟨some [], 0, fun _ => 0, false, [], true⟩ "o" "r" "b"
        false "" "" :=
  C6_no_commit_no_push_when_clean.2.2 ⟨some [], 0, fun _ => 0, false, [], true⟩
    "o" "r" "b" false "" "" rfl

lemma inner_clean (l : List String) (r : String) :
    (l.flatMap fun branch =>
      if branch.trim = "" then [] else [(r, branch.trim)]) =
    (((l.map String.trim).filter fun y => y ≠ "").map fun b => (r, b)) := by
  induction l with
  | nil => simp
  | cons a l ih => by_cases h : a.trim = "" <;> simp [h, ih]

lemma outer_clean (l : List String) (branches : String) :
    (l.flatMap fun repo =>
      if repo.trim = "" then []
      else (branches.splitOn ",").flatMap fun branch =>
        if branch.trim = "" then [] else [(repo.trim, branch.trim)]) =
    (((l.map String.trim).filter fun y => y ≠ "").flatMap fun r =>
      (spec_clean_split branches).map fun b => (r, b)) := by
  induction l with
  | nil => simp
  | cons a l ih =>
    by_cases h : a.trim = "" <;> simp [h, ih]
    simpa [spec_clean_split] using inner_clean (branches.splitOn ",") a.trim

lemma cross_length {α β : Type} (l : List α) (m : List β) :
    (l.flatMap fun r => m.map fun b => (r, b)).length =
      l.length * m.length := by
  induction l with
  | nil => simp
  | cons a l ih => simp [ih, Nat.succ_mul, Nat.add_comm]

/-- C4: for a selector not equal to the `:all:` sentinel, the iterator yields
exactly the cross-product of the trimmed, non-empty comma-splits of repos and
branches, in input order, with `|repos| * |branches|` pairs. -/
theorem C4_cross_product_iterator :
    ∀ (all_repositories : List String) (repos branches : String),
      repos ≠ ":all:" →
      iterate_repos_and_branches all_repositories repos branches =
        ((spec_clean_split repos).flatMap fun r =>
          (spec_clean_split branches).map fun b => (r, b)) ∧
      (iterate_repos_and_branches all_repositories repos branches).length =
        (spec_clean_split repos).length * (spec_clean_split branches).length := by
  intro allR repos branches h
  have key : iterate_repos_and_branches allR repos branches =
      ((spec_clean_split repos).flatMap fun r =>
        (spec_clean_split branches).map fun b => (r, b)) := by
    have h0 : iterate_repos_and_branches allR repos branches =
        ((repos.splitOn ",").flatMap fun repo =>
          if repo.trim = "" then []
          else (branches.splitOn ",").flatMap fun branch =>
            if branch.trim = "" then [] else [(repo.trim, branch.trim)]) := by
      unfold iterate_repos_and_branches
      rw [if_neg h]
    rw [h0, outer_clean]
    rfl
  exact ⟨key, by rw [key]; exact cross_length _ _⟩

/-- Witness for C4 at a concrete selector. -/
theorem C4_cross_product_iterator_witness :
    iterate_repos_and_branches [] "a,b" "x,y" =
      ((spec_clean_split "a,b").flatMap fun r =>
        (spec_clean_split "x,y").map fun b => (r, b)) :=
  (C4_cross_product_iterator [] "a,b" "x,y" (by decide)).1

/-- The events `_fix_copier_answers` can emit: nothing, or exactly the
write / add / commit triple. -/
lemma fix_events_shape (answers : Option (List Char)) :
    (fix_copier_answers answers).2 = [] ∨
    ∃ c, (fix_copier_answers answers).2 =
      [Ev.writeAnswers c, Ev.gitAdd ".copier-answers.yml",
       Ev.gitCommit "[FIX] .copier-answers.yml"] := by
  cases answers with
  | none => exact Or.inl rfl
  | some s =>
    by_cases h : replace_all desc_pat desc_rep s ≠ s
    · exact Or.inr ⟨replace_all desc_pat desc_rep s,
        by simp [fix_copier_answers, h]⟩
    · exact Or.inl (by simp [fix_copier_answers, h])

/-- C7: when the scaffold update tool exits non-zero, the iteration ends
right after the printed notice: no staging of `.`, no formatting pass, no
push, no PR-branch activity, no PR creation, and the only commit that can
exist in the trace is the earlier answers-file fix; the loop goes on with the
remaining pairs. -/
theorem C7_update_failure_skips_iteration :
    ∀ (env : IterEnv) (org repo branch : String) (skip_ci : Bool)
      (git_user_name git_user_email : String) (content : List Char),
      env.answers = some content →
      env.copierExit ≠ 0 →
      ((iteration_body env org repo branch skip_ci git_user_name
          git_user_email).getLast? = some (Ev.printUpdateFailed repo) ∧
       (∀ r, Ev.preCommit r ∉ iteration_body env org repo branch skip_ci
          git_user_name git_user_email) ∧
       Ev.gitAdd "." ∉ iteration_body env org repo branch skip_ci
          git_user_name git_user_email ∧
       Ev.rmRejFiles ∉ iteration_body env org repo branch skip_ci
          git_user_name git_user_email ∧
       Ev.gitPush ∉ iteration_body env org repo branch skip_ci
          git_user_name git_user_email ∧
       (∀ b, Ev.gitPushForce b ∉ iteration_body env org repo branch skip_ci
          git_user_name git_user_email) ∧
       (∀ b, Ev.gitCheckoutB b ∉ iteration_body env org repo branch skip_ci
          git_user_name git_user_email) ∧
       (∀ o r b t, Ev.ghCreatePR o r b t ∉ iteration_body env org repo branch
          skip_ci git_user_name git_user_email) ∧
       (∀ m, Ev.gitCommit m ∈ iteration_body env org repo branch skip_ci
          git_user_name git_user_email → m = "[FIX] .copier-answers.yml") ∧
       ∀ (envOf : String × String → IterEnv) (rest : List (String × String)),
         ∃ evs, main_loop envOf org skip_ci git_user_name git_user_email
            ((repo, branch) :: rest) =
          evs ++ main_loop envOf org skip_ci git_user_name git_user_email rest) := by
  intro env org repo branch sc un ue content hans hc
  have hbody : iteration_body env org repo branch sc un ue =
      (if un ≠ "" then [Ev.gitConfig "user.name" un] else []) ++
      (if ue ≠ "" then [Ev.gitConfig "user.email" ue] else []) ++
      ((fix_copier_answers (some content)).2 ++
       [Ev.copierUpdate env.copierExit, Ev.printUpdateFailed repo]) := by
    unfold iteration_body
    rw [hans]
    simp [hc]
  rw [hbody]
  refine ⟨?_, ?_, ?_, ?_, ?_, ?_, ?_, ?_, ?_, fun envOf rest => ⟨_, rfl⟩⟩ <;>
    obtain hfix | ⟨c, hfix⟩ := fix_events_shape (some content) <;> rw [hfix] <;>
    by_cases h1 : un ≠ "" <;> by_cases h2 : ue ≠ "" <;> simp [h1, h2]

/-- Witness for C7 at a concrete failing update. -/
theorem C7_update_failure_skips_iteration_witness :
    (iteration_body ⟨some [], 1, fun _ => 0, true, [], true⟩ "o" "r" "b"
      false "" "").getLast? = some (Ev.printUpdateFailed "r") :=
  (C7_update_failure_skips_iteration ⟨some [], 1, fun _ => 0, true, [], true⟩
    "o" "r" "b" false "" "" [] rfl (by decide)).1

lemma count_invocations_le (codes : Nat → Int) :
    ∀ (n : Nat) (r : Int) (k : Nat),
      count_invocations (pre_commit_loop codes r k n).1 ≤ n := by
  intro n
  induction n with
  | zero => intro r k; simp [pre_commit_loop, count_invocations]
  | succ n ih =>
    intro r k
    by_cases h : codes k = 0
    · simp [pre_commit_loop, h, count_invocations, List.countP_cons]
    · simp [pre_commit_loop, h, count_invocations, List.countP_cons]
      have h2 := ih (codes k) (k + 1)
      simp [count_invocations] at h2
      omega

lemma well_staged_loop (codes : Nat → Int) :
    ∀ (n : Nat) (r : Int) (k : Nat),
      well_staged (pre_commit_loop codes r k n).1 = true := by
  intro n
  induction n with
  | zero => intro r k; simp [pre_commit_loop, well_staged]
  | succ n ih =>
    intro r k
    by_cases h : codes k = 0 <;> simp [pre_commit_loop, h, well_staged, ih]

lemma loop_stops (codes : Nat → Int) :
    ∀ (n : Nat) (k : Nat) (r : Int) (j : Nat),
      j < n → codes (k + j) = 0 → (∀ i, i < j → codes (k + i) ≠ 0) →
      count_invocations (pre_commit_loop codes r k n).1 = j + 1 ∧
      (pre_commit_loop codes r k n).2 = 0 := by
  intro n
  induction n with
  | zero => intro k r j hj; exact absurd hj (Nat.not_lt_zero j)
  | succ n ih =>
    intro k r j hj h0 hpre
    cases j with
    | zero =>
      have hk : codes k = 0 := by simpa using h0
      simp [pre_commit_loop, hk, count_invocations]
    | succ j =>
      have hk : codes k ≠ 0 := by simpa using hpre 0 (Nat.succ_pos j)
      have hrec := ih (k + 1) (codes k) j (by omega)
        (by rw [show k + 1 + j = k + (j + 1) by omega]; exact h0)
        (fun i hi => by
          rw [show k + 1 + i = k + (i + 1) by omega]
          exact hpre (i + 1) (by omega))
      constructor
      · simp [pre_commit_loop, hk, count_invocations, List.countP_cons]
        have hcnt := hrec.1
        simp [count_invocations] at hcnt
        omega
      · simp [pre_commit_loop, hk]
        exact hrec.2

/-- C1: the formatting retry loop runs `pre-commit` at most 3 times, stages
after every invocation, stops at the first exit code 0; for the simulated
sequence [1,1,0] exactly 3 invocations occur and the loop succeeds, for
[1,1,1] it fails and the iteration takes the manual-intervention path. -/
theorem C1_formatting_retry_loop :
    (∀ codes : Nat → Int,
      count_invocations (pre_commit_loop codes 0 0 3).1 ≤ 3 ∧
      well_staged (pre_commit_loop codes 0 0 3).1 = true ∧
      ∀ k, k < 3 → codes k = 0 → (∀ j, j < k → codes j ≠ 0) →
        count_invocations (pre_commit_loop codes 0 0 3).1 = k + 1 ∧
        (pre_commit_loop codes 0 0 3).2 = 0) ∧
    count_invocations
      (pre_commit_loop (fun k => if k < 2 then 1 else 0) 0 0 3).1 = 3 ∧
    (pre_commit_loop (fun k => if k < 2 then 1 else 0) 0 0 3).2 = 0 ∧
    count_invocations (pre_commit_loop (fun _ => 1) 0 0 3).1 = 3 ∧
    (pre_commit_loop (fun _ => 1) 0 0 3).2 = 1 ∧
    Ev.printManual "r" ∉
      iteration_body ⟨some [], 0, fun k => if k < 2 then 1 else 0, true, [], true⟩
        "o" "r" "b" false "" "" ∧
    Ev.printManual "r" ∈
      iteration_body ⟨some [], 0, fun _ => 1, true, [], true⟩
        "o" "r" "b" false "" "" := by
  refine ⟨?_, by decide, by decide, by decide, by decide, by decide, by decide⟩
  intro codes
  exact ⟨count_invocations_le codes 3 0 0, well_staged_loop codes 3 0 0,
    fun k hk h0 hpre => loop_stops codes 3 0 0 k hk (by simpa using h0)
      (fun i hi => by simpa using hpre i hi)⟩

/-- Witness for C1 at the all-zero code sequence. -/
theorem C1_formatting_retry_loop_witness :
    count_invocations (pre_commit_loop (fun _ => (0 : Int)) 0 0 3).1 = 0 + 1 ∧
    (pre_commit_loop (fun _ => (0 : Int)) 0 0 3).2 = 0 :=
  (C1_formatting_retry_loop.1 (fun _ => 0)).2.2 0 (by omega) rfl
    (fun j hj => absurd hj (Nat.not_lt_zero j))

/-- C3 counterexample: an exception other than branch-not-found raised in the
first iteration prevents the second (repository, branch) pair from being
processed — `main`'s `try` only catches `BranchNotFoundError`. -/
theorem C3_exception_isolation_counterexample :
    (main_try_loop
      (fun p => if p = ("repo1", "b1") then IterOutcome.raises ExcKind.other
                else IterOutcome.ok)
      [("repo1", "b1"), ("repo2", "b2")]).1 = [("repo1", "b1")] ∧
    ("repo2", "b2") ∉
      (main_try_loop
        (fun p => if p = ("repo1", "b1") then IterOutcome.raises ExcKind.other
                  else IterOutcome.ok)
        [("repo1", "b1"), ("repo2", "b2")]).1 := by
  decide

/-- C3 (amended): only the branch-not-found exception is isolated: when no
iteration raises any other exception, every (repository, branch) pair is
processed and branch-not-found iterations are skipped silently, with no
exception escaping the loop. -/
theorem C3_branch_not_found_isolated :
    ∀ (outcome : String × String → IterOutcome)
      (pairs : List (String × String)),
      (∀ p ∈ pairs, outcome p ≠ IterOutcome.raises ExcKind.other) →
      main_try_loop outcome pairs = (pairs, none) := by
  intro outcome pairs
  induction pairs with
  | nil => intro _; rfl
  | cons p rest ih =>
    intro h
    have hp := h p (by simp)
    have hr : main_try_loop outcome rest = (rest, none) :=
      ih (fun q hq => h q (by simp [hq]))
    cases ho : outcome p with
    | ok => simp [main_try_loop, ho, hr]
    | raises e =>
      cases e with
      | branchNotFound => simp [main_try_loop, ho, hr]
      | other => exact absurd ho hp

/-- Witness for C3: a branch-not-found in the first pair does not stop the
second pair. -/
theorem C3_branch_not_found_isolated_witness :
    main_try_loop
      (fun p => if p = ("r1", "b1") then IterOutcome.raises ExcKind.branchNotFound
                else IterOutcome.ok)
      [("r1", "b1"), ("r2", "b2")] = ([("r1", "b1"), ("r2", "b2")], none) :=
  C3_branch_not_found_isolated _ _ (by decide)

/-! Idempotence of the answers-file replacement (C5)

Key structural facts: the pattern `repo_description: null` contains no quote
character, while every nonempty suffix of the replacement
`repo_description: ""` contains one, and no nonempty suffix of the pattern is
a prefix of the replacement or vice versa; hence a second scan can never find
the pattern again. -/

lemma replaceAllGo_nil (pat rep : List Char) (fuel : Nat) :
    replaceAllGo pat rep fuel [] = [] := by
  cases fuel <;> rfl

lemma go_fuel_irrel (pat rep : List Char) :
    ∀ (f1 : Nat) (s : List Char) (f2 : Nat),
      s.length ≤ f1 → s.length ≤ f2 →
      replaceAllGo pat rep f1 s = replaceAllGo pat rep f2 s := by
  intro f1
  induction f1 with
  | zero =>
    intro s f2 h1 _
    have hs : s = [] := List.length_eq_zero.1 (Nat.le_zero.1 h1)
    subst hs
    simp [replaceAllGo_nil]
  | succ f1 ih =>
    intro s f2 h1 h2
    cases s with
    | nil => simp [replaceAllGo_nil]
    | cons c rest =>
      have h1' : rest.length ≤ f1 := by
        simp [List.length_cons] at h1
        omega
      cases f2 with
      | zero =>
        simp [List.length_cons] at h2
      | succ f2 =>
        have h2' : rest.length ≤ f2 := by
          simp [List.length_cons] at h2
          omega
        show replaceAllGo pat rep (f1 + 1) (c :: rest) =
          replaceAllGo pat rep (f2 + 1) (c :: rest)
        simp only [replaceAllGo]
        by_cases h : pat ≠ [] ∧ pat <+: (c :: rest)
        · rw [if_pos h, if_pos h]
          have hl : (rest.drop (pat.length - 1)).length ≤ rest.length := by
            rw [List.length_drop]
            omega
          exact congrArg (rep ++ ·)
            (ih _ _ (le_trans hl h1') (le_trans hl h2'))
        · rw [if_neg h, if_neg h]
          exact congrArg (c :: ·) (ih rest f2 h1' h2')

lemma replace_all_nil (pat rep : List Char) :
    replace_all pat rep [] = [] := rfl

lemma replace_all_cons_pos (pat rep : List Char) (c : Char) (rest : List Char)
    (h : pat ≠ [] ∧ pat <+: (c :: rest)) :
    replace_all pat rep (c :: rest) =
      rep ++ replace_all pat rep (rest.drop (pat.length - 1)) := by
  unfold replace_all
  show replaceAllGo pat rep (rest.length + 1) (c :: rest) = _
  simp only [replaceAllGo]
  rw [if_pos h]
  refine congrArg (rep ++ ·) ?_
  have hl : (rest.drop (pat.length - 1)).length ≤ rest.length := by
    rw [List.length_drop]
    omega
  exact go_fuel_irrel pat rep rest.length _ _ hl (le_refl _)

lemma replace_all_cons_neg (pat rep : List Char) (c : Char) (rest : List Char)
    (h : ¬(pat ≠ [] ∧ pat <+: (c :: rest))) :
    replace_all pat rep (c :: rest) = c :: replace_all pat rep rest := by
  unfold replace_all
  show replaceAllGo pat rep (rest.length + 1) (c :: rest) = _
  simp only [replaceAllGo]
  rw [if_neg h]

lemma desc_pat_ne_nil : desc_pat ≠ [] := by decide

lemma desc_facts_rep : ∀ i, i < desc_rep.length →
    ¬ desc_pat <+: desc_rep.drop i ∧ ¬ desc_rep.drop i <+: desc_pat := by
  decide

lemma desc_facts_pat : ∀ k, k < desc_pat.length →
    ¬ desc_pat.drop k <+: desc_rep ∧ ¬ desc_rep <+: desc_pat.drop k := by
  decide

lemma drop_one_of_cons_pfx {α : Type} (l : List α) (a : α) (t : List α)
    (h : l <+: a :: t) : l.drop 1 <+: t := by
  cases l with
  | nil => exact List.nil_prefix
  | cons b l' =>
    rw [List.cons_prefix_cons] at h
    simpa using h.2

lemma go_through (X : List Char) :
    ∀ u : List Char,
      (∀ i, i < u.length → ¬ desc_pat <+: (u.drop i ++ X)) →
      replace_all desc_pat desc_rep (u ++ X) =
        u ++ replace_all desc_pat desc_rep X := by
  intro u
  induction u with
  | nil => intro _; simp
  | cons c u ih =>
    intro h
    have h0 : ¬ desc_pat <+: (c :: (u ++ X)) := by
      have := h 0 (Nat.succ_pos _)
      simpa using this
    show replace_all desc_pat desc_rep (c :: (u ++ X)) = _
    rw [replace_all_cons_neg _ _ _ _ (fun hcon => h0 hcon.2)]
    rw [ih (fun i hi => by simpa using h (i + 1) (by simpa using hi))]
    rfl

lemma rep_through (X : List Char) :
    replace_all desc_pat desc_rep (desc_rep ++ X) =
      desc_rep ++ replace_all desc_pat desc_rep X := by
  apply go_through
  intro i hi hpre2
  rcases List.prefix_or_prefix_of_prefix hpre2
      (List.prefix_append (desc_rep.drop i) X) with hc | hc
  · exact (desc_facts_rep i hi).1 hc
  · exact (desc_facts_rep i hi).2 hc

lemma not_prefix_replace :
    ∀ (n : Nat) (s : List Char), s.length ≤ n →
      ∀ k, k < desc_pat.length →
        ¬ desc_pat.drop k <+: s →
        ¬ desc_pat.drop k <+: replace_all desc_pat desc_rep s := by
  intro n
  induction n with
  | zero =>
    intro s hs k _ hns hcon
    have heq : s = [] := List.length_eq_zero.1 (Nat.le_zero.1 hs)
    subst heq
    rw [replace_all_nil] at hcon
    exact hns hcon
  | succ n ih =>
    intro s hs k hk hns hcon
    cases s with
    | nil =>
      rw [replace_all_nil] at hcon
      exact hns hcon
    | cons c rest =>
      by_cases hm : desc_pat ≠ [] ∧ desc_pat <+: (c :: rest)
      · rw [replace_all_cons_pos _ _ _ _ hm] at hcon
        rcases List.prefix_or_prefix_of_prefix hcon
            (List.prefix_append desc_rep _) with hc | hc
        · exact (desc_facts_pat k hk).1 hc
        · exact (desc_facts_pat k hk).2 hc
      · rw [replace_all_cons_neg _ _ _ _ hm] at hcon
        have hqne : desc_pat.drop k ≠ [] := by
          intro hnil
          have hlen : desc_pat.length - k = 0 := by
            rw [← List.length_drop, hnil]
            rfl
          omega
        obtain ⟨q0, q', hq⟩ := List.exists_cons_of_ne_nil hqne
        rw [hq] at hcon hns
        rw [List.cons_prefix_cons] at hcon
        obtain ⟨hq0, hq'⟩ := hcon
        have hdrop : desc_pat.drop (k + 1) = q' := by
          have h1 : (desc_pat.drop k).drop 1 = desc_pat.drop (k + 1) := by
            rw [List.drop_drop]
          rw [← h1, hq]
          simp
        by_cases hk1 : k + 1 < desc_pat.length
        · have hns' : ¬ desc_pat.drop (k + 1) <+: rest := by
            rw [hdrop]
            intro hr
            exact hns (List.cons_prefix_cons.2 ⟨hq0, hr⟩)
          have hrec := ih rest (by
              simp [List.length_cons] at hs
              omega) (k + 1) hk1 hns'
          rw [hdrop] at hrec
          exact hrec hq'
        · have hq'nil : q' = [] := by
            have hlen : (desc_pat.drop k).length = desc_pat.length - k :=
              List.length_drop _ _
            rw [hq] at hlen
            simp [List.length_cons] at hlen
            have : q'.length = 0 := by omega
            exact List.length_eq_zero.1 this
          apply hns
          refine List.cons_prefix_cons.2 ⟨hq0, ?_⟩
          rw [hq'nil]
          exact List.nil_prefix

lemma replace_all_idem_aux :
    ∀ (n : Nat) (s : List Char), s.length ≤ n →
      replace_all desc_pat desc_rep (replace_all desc_pat desc_rep s) =
        replace_all desc_pat desc_rep s := by
  intro n
  induction n with
  | zero =>
    intro s hs
    have heq : s = [] := List.length_eq_zero.1 (Nat.le_zero.1 hs)
    subst heq
    rfl
  | succ n ih =>
    intro s hs
    cases s with
    | nil => rfl
    | cons c rest =>
      by_cases hm : desc_pat ≠ [] ∧ desc_pat <+: (c :: rest)
      · rw [replace_all_cons_pos _ _ _ _ hm, rep_through]
        refine congrArg (desc_rep ++ ·) (ih _ ?_)
        have hl : (rest.drop (desc_pat.length - 1)).length ≤ rest.length := by
          rw [List.length_drop]
          omega
        simp [List.length_cons] at hs
        omega
      · rw [replace_all_cons_neg _ _ _ _ hm]
        have hnp : ¬ desc_pat <+: (c :: rest) :=
          fun hcon => hm ⟨desc_pat_ne_nil, hcon⟩
        have hcons : ¬ desc_pat <+: (c :: replace_all desc_pat desc_rep rest) := by
          intro hcon
          obtain ⟨p0, p', hp⟩ := List.exists_cons_of_ne_nil desc_pat_ne_nil
          have hp0 : p0 = c := by
            have h2 := hcon
            rw [hp] at h2
            exact (List.cons_prefix_cons.1 h2).1
          have hdrop1 : desc_pat.drop 1 = p' := by
            rw [hp]
            simp
          have h1lt : 1 < desc_pat.length := by decide
          have hnp' : ¬ desc_pat.drop 1 <+: rest := by
            rw [hdrop1]
            intro hr
            apply hnp
            rw [hp]
            exact List.cons_prefix_cons.2 ⟨hp0, hr⟩
          exact not_prefix_replace rest.length rest (le_refl _) 1 h1lt hnp'
            (drop_one_of_cons_pfx _ _ _ hcon)
        rw [replace_all_cons_neg _ _ _ _ (fun hcon => hcons hcon.2)]
        refine congrArg (c :: ·) (ih rest ?_)
        simp [List.length_cons] at hs
        omega

/-- Python's replace for this pattern and replacement is idempotent. -/
lemma replace_all_idem (s : List Char) :
    replace_all desc_pat desc_rep (replace_all desc_pat desc_rep s) =
      replace_all desc_pat desc_rep s :=
  replace_all_idem_aux s.length s (le_refl _)

/-- C5: the answers-file fixer is idempotent: a second application leaves the
content unchanged and emits no events (no rewrite, no add, no commit); it is
a no-op without error when the file is absent or its content is unchanged by
the replacement. -/
theorem C5_fix_copier_answers_idempotent :
    (∀ answers : Option (List Char),
      fix_copier_answers (fix_copier_answers answers).1 =
        ((fix_copier_answers answers).1, [])) ∧
    fix_copier_answers none = (none, []) ∧
    ∀ s : List Char, replace_all desc_pat desc_rep s = s →
      fix_copier_answers (some s) = (some s, []) := by
  refine ⟨?_, rfl, ?_⟩
  · intro answers
    cases answers with
    | none => rfl
    | some s =>
      by_cases h : replace_all desc_pat desc_rep s ≠ s
      · have hfix : (fix_copier_answers (some s)).1 =
            some (replace_all desc_pat desc_rep s) := by
          simp [fix_copier_answers, h]
        rw [hfix]
        simp [fix_copier_answers, replace_all_idem s]
      · have heq : replace_all desc_pat desc_rep s = s := of_not_not h
        have hfix : (fix_copier_answers (some s)).1 = some s := by
          simp [fix_copier_answers, heq]
        rw [hfix]
        simp [fix_copier_answers, heq]
  · intro s hs
    simp [fix_copier_answers, hs]

/-- Witness for C5 at concrete file contents. -/
theorem C5_fix_copier_answers_idempotent_witness :
    fix_copier_answers
        (fix_copier_answers (some ("repo_description: null".toList))).1 =
      ((fix_copier_answers (some ("repo_description: null".toList))).1, []) ∧
    fix_copier_answers (some ("x".toList)) = (some ("x".toList), []) :=
  ⟨C5_fix_copier_answers_idempotent.1 (some ("repo_description: null".toList)),
   C5_fix_copier_answers_idempotent.2.2 ("x".toList) (by decide)⟩

end CopierUpdate
